import Mathlib

/-!
Shallow embedding of the condition-resolution core of
`nestable-tailwind-variants` (`src/resolver.ts`, the `$base`/`$default`
variant of `resolveConditions`, lines 70-128), together with theorems
settling the specification claims about it.

JavaScript objects are modelled as ordered association lists
(`List (String × JSVal)`), matching `Object.entries` insertion order;
keys are distinct in any object produced at runtime, and property lookup
returns the first binding.  `undefined` is an explicit value.  Property
access on a missing key yields `undefined`, and the `in` operator is
modelled as own-key membership.
-/

namespace NTV

/-- JavaScript runtime values relevant to the resolver: strings, booleans,
`undefined`, arrays, and plain objects (ordered key/value lists). -/
inductive JSVal : Type where
  | vstr : String → JSVal
  | vbool : Bool → JSVal
  | vundef : JSVal
  | varr : List JSVal → JSVal
  | vobj : List (String × JSVal) → JSVal

/-- A JavaScript object viewed through `Object.entries`: an ordered list of
key/value pairs. -/
abbrev Obj : Type := List (String × JSVal)

/-- Property access `o[key]`: the first binding for `key`, or `undefined`
when the key is absent (JS semantics for missing properties). -/
def getProp (o : Obj) (key : String) : JSVal :=
  match o with
  | [] => .vundef
  | (k, v) :: rest => if k == key then v else getProp rest key

/-- The `in` operator on own keys: `key in o`. -/
def keyIn (o : Obj) (key : String) : Bool :=
  o.any (fun kv => kv.1 == key)

/-- JavaScript truthiness restricted to the modelled values: non-empty
strings, `true`, arrays and objects are truthy; `""`, `false` and
`undefined` are falsy. -/
def truthy : JSVal → Bool
  | .vstr s => !(s == "")
  | .vbool b => b
  | .vundef => false
  | .varr _ => true
  | .vobj _ => true

/-- `isPlainObject` from `resolver.ts`: `typeof value === 'object' &&
value !== null && !Array.isArray(value)` — exactly the object case. -/
def isPlainObject : JSVal → Bool
  | .vobj _ => true
  | _ => false

/-- A capital ASCII letter, as matched by the character class `[A-Z]`. -/
def isUpperAZ (c : Char) : Bool := 'A' ≤ c && c ≤ 'Z'

/-- `pat.test(key)` for the pattern "literal characters `pre` followed by
`[A-Z]`", anchored at the start of the key. -/
def matchesBoolPat : List Char → List Char → Bool
  | [], c :: _ => isUpperAZ c
  | _ :: _, [] => false
  | p :: ps, c :: cs => p == c && matchesBoolPat ps cs
  | [], [] => false

/-- The boolean-condition name test of `resolver.ts`:
`/^is[A-Z]/.test(key) || /^allows[A-Z]/.test(key)`. -/
def isBooleanConditionKey (key : String) : Bool :=
  matchesBoolPat "is".data key.data || matchesBoolPat "allows".data key.data

/-- The message of the error thrown when the reserved sentinel is supplied
as a runtime property value for `key` (`resolver.ts` lines 96-100). -/
def reservedErrorMessage (key : String) : String :=
  "\"$default\" is reserved for defining fallback styles and cannot be used as a value for \""
    ++ key ++ "\"."

/-- The strict-equality test `propValue === '$default'` of `resolver.ts`
line 96: true exactly for the string value `"$default"`. -/
def isSentinel : JSVal → Bool
  | .vstr s => s == "$default"
  | _ => false

/-- The key looked up in a variant mapping: the property value itself when
it is a string that is a key of the mapping, otherwise `"$default"`
(`value[matched ? propValue : '$default']`, line 117). -/
def variantLookupKey (propValue : JSVal) (ventries : Obj) : String :=
  match propValue with
  | .vstr s => if keyIn ventries s then s else "$default"
  | _ => "$default"

/-- `matched` for a variant condition: the property value is a string that
is a key of the mapping (`typeof propValue === 'string' && propValue in
value`, line 113). -/
def variantMatched (propValue : JSVal) (ventries : Obj) : Bool :=
  match propValue with
  | .vstr s => keyIn ventries s
  | _ => false

mutual

/-- `toClassValues` (`resolver.ts` lines 89-91): a plain object is a nested
scheme and is resolved recursively; any other value is a single literal
class-value fragment. -/
def toClassValues (value : JSVal) (props : Obj) : Except String (List JSVal) :=
  match value with
  | .vobj entries => resolveConditions entries props
  | v => .ok [v]
termination_by (sizeOf value, 1)

/-- The `for (const [key, value] of Object.entries(conditions))` loop of
`resolveConditions` (lines 93-119), processing the scheme's entries in
declaration order while skipping the two reserved keys that the
destructuring pattern `{ $base, $default, ...conditions }` removes.
Returns the accumulated `classes` list and the `hasMatchedCondition`
flag. -/
def conditionLoop (entries : Obj) (props : Obj) : Except String (List JSVal × Bool) :=
  match entries with
  | [] => .ok ([], false)
  | (key, value) :: rest =>
    if key == "$base" || key == "$default" then
      conditionLoop rest props
    else if isSentinel (getProp props key) then
      .error (reservedErrorMessage key)
    else if isBooleanConditionKey key then
      if truthy (getProp props key) then
        (toClassValues value props).bind (fun cs =>
          (conditionLoop rest props).bind (fun p => .ok (cs ++ p.1, true)))
      else
        conditionLoop rest props
    else
      match value with
      | .vobj ventries =>
        (toClassValues (getProp ventries (variantLookupKey (getProp props key) ventries)) props).bind
          (fun cs => (conditionLoop rest props).bind (fun p =>
            .ok (cs ++ p.1, variantMatched (getProp props key) ventries || p.2)))
      | _ => conditionLoop rest props
termination_by (sizeOf entries, 0)
decreasing_by
  all_goals simp_wf
  all_goals
    have hgp : ∀ (o : Obj) (k : String), sizeOf (getProp o k) < 1 + sizeOf o := by
      intro o k
      induction o with
      | nil => simp [getProp]
      | cons head tail ih =>
        obtain ⟨k2, v2⟩ := head
        simp only [getProp]
        split
        · simp only [Prod.mk.sizeOf_spec, List.cons.sizeOf_spec]
          omega
        · simp only [Prod.mk.sizeOf_spec, List.cons.sizeOf_spec]
          omega
  all_goals first
    | (apply Prod.Lex.left; omega)
    | (apply Prod.Lex.left
       exact lt_of_lt_of_le (hgp _ _) (by omega))

/-- `resolveConditions` (`resolver.ts` lines 82-128): run the condition
loop, prepend this level's `$default` when no condition matched, then
unconditionally prepend this level's `$base`. -/
def resolveConditions (scheme : Obj) (props : Obj) : Except String (List JSVal) :=
  (conditionLoop scheme props).bind (fun p =>
    .ok (getProp scheme "$base" ::
      (if p.2 then p.1 else getProp scheme "$default" :: p.1)))
termination_by (sizeOf scheme, 1)

end

/-- The contribution of one condition entry to a level's output: the
fragments it pushes onto `classes` and whether it sets
`hasMatchedCondition`.  This is the body of one iteration of the loop in
`resolveConditions`. -/
def entryResult (key : String) (value : JSVal) (props : Obj) :
    Except String (List JSVal × Bool) :=
  if key == "$base" || key == "$default" then .ok ([], false)
  else if isSentinel (getProp props key) then .error (reservedErrorMessage key)
  else if isBooleanConditionKey key then
    if truthy (getProp props key) then
      (toClassValues value props).bind (fun cs => .ok (cs, true))
    else .ok ([], false)
  else
    match value with
    | .vobj ventries =>
      (toClassValues (getProp ventries (variantLookupKey (getProp props key) ventries)) props).bind
        (fun cs => .ok (cs, variantMatched (getProp props key) ventries))
    | _ => .ok ([], false)

mutual

/-- `CondKeyAt scheme key`: `key` occurs as a (non-reserved) condition key
at some level of the scheme tree — either at the top level, or nested
inside some entry's value. -/
inductive CondKeyAt : Obj → String → Prop where
  | here (key : String) (value : JSVal) (rest : Obj) :
      key ≠ "$base" → key ≠ "$default" → CondKeyAt ((key, value) :: rest) key
  | tail (entry : String × JSVal) (rest : Obj) (key : String) :
      CondKeyAt rest key → CondKeyAt (entry :: rest) key
  | inValue (k : String) (v : JSVal) (rest : Obj) (key : String) :
      ValKeyAt v key → CondKeyAt ((k, v) :: rest) key

/-- `ValKeyAt v key`: the value `v` is a nested scheme object in which
`key` occurs as a condition key at some level. -/
inductive ValKeyAt : JSVal → String → Prop where
  | obj (entries : Obj) (key : String) :
      CondKeyAt entries key → ValKeyAt (.vobj entries) key

end

@[simp] theorem ok_bind {ε α β : Type} (a : α) (f : α → Except ε β) :
    (Except.ok a).bind f = f a := rfl

@[simp] theorem error_bind {ε α β : Type} (e : ε) (f : α → Except ε β) :
    (Except.error e : Except ε α).bind f = .error e := rfl

theorem conditionLoop_nil (props : Obj) :
    conditionLoop [] props = .ok ([], false) := by
  simp [conditionLoop]

theorem conditionLoop_cons (key : String) (value : JSVal) (rest props : Obj) :
    conditionLoop ((key, value) :: rest) props =
      (entryResult key value props).bind (fun p =>
        (conditionLoop rest props).bind (fun q =>
          .ok (p.1 ++ q.1, p.2 || q.2))) := by
  rw [conditionLoop.eq_def]
  by_cases h1 : (key == "$base" || key == "$default") = true
  · cases h2 : conditionLoop rest props <;> simp [entryResult, h1, h2]
  · by_cases h2 : isSentinel (getProp props key) = true
    · simp [entryResult, h1, h2]
    · by_cases h3 : isBooleanConditionKey key = true
      · by_cases h4 : truthy (getProp props key) = true
        · cases h5 : toClassValues value props with
          | error e => simp [entryResult, h1, h2, h3, h4, h5]
          | ok cs =>
            cases h6 : conditionLoop rest props <;>
              simp [entryResult, h1, h2, h3, h4, h5, h6]
        · cases h6 : conditionLoop rest props <;>
            simp [entryResult, h1, h2, h3, h4, h6]
      · cases value with
        | vobj ventries =>
          cases h5 : toClassValues (getProp ventries (variantLookupKey (getProp props key) ventries)) props with
          | error e => simp [entryResult, h1, h2, h3, h5]
          | ok cs =>
            cases h6 : conditionLoop rest props <;>
              simp [entryResult, h1, h2, h3, h5, h6]
        | vstr s => cases h6 : conditionLoop rest props <;> simp [entryResult, h1, h2, h3, h6]
        | vbool b => cases h6 : conditionLoop rest props <;> simp [entryResult, h1, h2, h3, h6]
        | vundef => cases h6 : conditionLoop rest props <;> simp [entryResult, h1, h2, h3, h6]
        | varr a => cases h6 : conditionLoop rest props <;> simp [entryResult, h1, h2, h3, h6]

theorem toClassValues_vobj (entries props : Obj) :
    toClassValues (.vobj entries) props = resolveConditions entries props := by
  simp [toClassValues]

theorem toClassValues_notObj (v : JSVal) (props : Obj)
    (h : isPlainObject v = false) :
    toClassValues v props = .ok [v] := by
  cases v <;> simp_all [toClassValues, isPlainObject]

theorem resolveConditions_eq (scheme props : Obj) :
    resolveConditions scheme props =
      (conditionLoop scheme props).bind (fun p =>
        .ok (getProp scheme "$base" ::
          (if p.2 then p.1 else getProp scheme "$default" :: p.1))) := by
  simp [resolveConditions]

theorem sizeOf_getProp_lt (o : Obj) (key : String) :
    sizeOf (getProp o key) < 1 + sizeOf o := by
  induction o with
  | nil => simp [getProp]
  | cons head tail ih =>
    obtain ⟨k, v⟩ := head
    simp only [getProp]
    split
    · simp only [Prod.mk.sizeOf_spec, List.cons.sizeOf_spec]
      omega
    · simp only [Prod.mk.sizeOf_spec, List.cons.sizeOf_spec]
      omega

theorem isSentinel_eq_true_iff (v : JSVal) :
    isSentinel v = true ↔ v = .vstr "$default" := by
  cases v <;> simp [isSentinel]

theorem getProp_of_keyIn_false (o : Obj) (key : String)
    (h : keyIn o key = false) : getProp o key = .vundef := by
  induction o with
  | nil => simp [getProp]
  | cons head tail ih =>
    obtain ⟨k, v⟩ := head
    simp only [keyIn, List.any_cons, Bool.or_eq_false_iff] at h
    simp only [getProp, h.1, Bool.false_eq_true, if_false]
    exact ih h.2

theorem getProp_append_skip (l1 l2 : Obj) (key k2 : String) (v : JSVal)
    (h : k2 ≠ key) : getProp (l1 ++ (key, v) :: l2) k2 = getProp (l1 ++ l2) k2 := by
  induction l1 with
  | nil =>
    have : (key == k2) = false := by
      simp only [beq_eq_false_iff_ne, ne_eq]
      exact fun hk => h hk.symm
    simp [getProp, this]
  | cons head tail ih =>
    obtain ⟨k3, v3⟩ := head
    simp only [List.cons_append, getProp]
    split
    · rfl
    · exact ih

theorem conditionLoop_append (l1 l2 props : Obj) :
    conditionLoop (l1 ++ l2) props =
      (conditionLoop l1 props).bind (fun p =>
        (conditionLoop l2 props).bind (fun q =>
          .ok (p.1 ++ q.1, p.2 || q.2))) := by
  induction l1 with
  | nil =>
    cases h : conditionLoop l2 props <;> simp [conditionLoop_nil, h]
  | cons head tail ih =>
    obtain ⟨k, v⟩ := head
    cases h1 : entryResult k v props with
    | error e => simp [conditionLoop_cons, h1]
    | ok p =>
      cases h2 : conditionLoop tail props with
      | error e => simp [conditionLoop_cons, ih, h1, h2]
      | ok q =>
        cases h3 : conditionLoop l2 props with
        | error e => simp [conditionLoop_cons, ih, h1, h2, h3]
        | ok r => simp [conditionLoop_cons, ih, h1, h2, h3, Bool.or_assoc]

theorem conditionLoop_cons_ok (key : String) (value : JSVal) (rest props : Obj)
    (cs : List JSVal) (m : Bool)
    (h : conditionLoop ((key, value) :: rest) props = .ok (cs, m)) :
    ∃ cs1 m1 cs2 m2, entryResult key value props = .ok (cs1, m1) ∧
      conditionLoop rest props = .ok (cs2, m2) ∧ cs = cs1 ++ cs2 ∧ m = (m1 || m2) := by
  rw [conditionLoop_cons] at h
  cases h1 : entryResult key value props with
  | error e => rw [h1] at h; simp at h
  | ok p =>
    obtain ⟨cs1, m1⟩ := p
    rw [h1] at h
    cases h2 : conditionLoop rest props with
    | error e => rw [h2] at h; simp at h
    | ok q =>
      obtain ⟨cs2, m2⟩ := q
      rw [h2] at h
      simp only [ok_bind, Except.ok.injEq, Prod.mk.injEq] at h
      exact ⟨cs1, m1, cs2, m2, rfl, rfl, h.1.symm, h.2.symm⟩

theorem resolveConditions_error_iff (scheme props : Obj) (e : String) :
    resolveConditions scheme props = .error e ↔
      conditionLoop scheme props = .error e := by
  rw [resolveConditions_eq]
  cases h : conditionLoop scheme props <;> simp

theorem toClassValues_error (v : JSVal) (props : Obj) (e : String)
    (h : toClassValues v props = .error e) :
    ∃ entries, v = .vobj entries ∧ conditionLoop entries props = .error e := by
  cases v with
  | vobj entries =>
    exact ⟨entries, rfl,
      (resolveConditions_error_iff _ _ _).mp (by rwa [toClassValues_vobj] at h)⟩
  | vstr s => simp [toClassValues] at h
  | vbool b => simp [toClassValues] at h
  | vundef => simp [toClassValues] at h
  | varr a => simp [toClassValues] at h

theorem entryResult_reserved (key : String) (value : JSVal) (props : Obj)
    (h : (key == "$base" || key == "$default") = true) :
    entryResult key value props = .ok ([], false) := by
  simp only [entryResult, h, if_true]

theorem entryResult_sentinel (key : String) (value : JSVal) (props : Obj)
    (h1 : (key == "$base" || key == "$default") = false)
    (h2 : isSentinel (getProp props key) = true) :
    entryResult key value props = .error (reservedErrorMessage key) := by
  simp only [entryResult, h1, h2, Bool.false_eq_true, if_false, if_true]

theorem entryResult_boolean_truthy (key : String) (value : JSVal) (props : Obj)
    (h1 : (key == "$base" || key == "$default") = false)
    (h2 : isSentinel (getProp props key) = false)
    (h3 : isBooleanConditionKey key = true)
    (h4 : truthy (getProp props key) = true) :
    entryResult key value props =
      (toClassValues value props).bind (fun cs => .ok (cs, true)) := by
  simp only [entryResult, h1, h2, h3, h4, Bool.false_eq_true, if_false, if_true]

theorem entryResult_boolean_falsy (key : String) (value : JSVal) (props : Obj)
    (h1 : (key == "$base" || key == "$default") = false)
    (h2 : isSentinel (getProp props key) = false)
    (h3 : isBooleanConditionKey key = true)
    (h4 : truthy (getProp props key) = false) :
    entryResult key value props = .ok ([], false) := by
  simp only [entryResult, h1, h2, h3, h4, Bool.false_eq_true, if_false, if_true]

theorem entryResult_variant (key : String) (ventries props : Obj)
    (h1 : (key == "$base" || key == "$default") = false)
    (h2 : isSentinel (getProp props key) = false)
    (h3 : isBooleanConditionKey key = false) :
    entryResult key (.vobj ventries) props =
      (toClassValues (getProp ventries (variantLookupKey (getProp props key) ventries)) props).bind
        (fun cs => .ok (cs, variantMatched (getProp props key) ventries)) := by
  simp only [entryResult, h1, h2, h3, Bool.false_eq_true, if_false]

theorem entryResult_nonVariant (key : String) (value : JSVal) (props : Obj)
    (h1 : (key == "$base" || key == "$default") = false)
    (h2 : isSentinel (getProp props key) = false)
    (h3 : isBooleanConditionKey key = false)
    (h4 : isPlainObject value = false) :
    entryResult key value props = .ok ([], false) := by
  cases value with
  | vobj o => simp [isPlainObject] at h4
  | vstr s => simp only [entryResult, h1, h2, h3, Bool.false_eq_true, if_false]
  | vbool b => simp only [entryResult, h1, h2, h3, Bool.false_eq_true, if_false]
  | vundef => simp only [entryResult, h1, h2, h3, Bool.false_eq_true, if_false]
  | varr a => simp only [entryResult, h1, h2, h3, Bool.false_eq_true, if_false]

theorem entryResult_error_inv (key : String) (value : JSVal) (props : Obj) (e : String)
    (h : entryResult key value props = .error e) :
    ((key == "$base" || key == "$default") = false ∧
       isSentinel (getProp props key) = true ∧ e = reservedErrorMessage key)
    ∨ toClassValues value props = .error e
    ∨ (∃ ventries, value = .vobj ventries ∧
        toClassValues (getProp ventries (variantLookupKey (getProp props key) ventries)) props
          = .error e) := by
  by_cases h1 : (key == "$base" || key == "$default") = true
  · rw [entryResult_reserved key value props h1] at h
    simp at h
  · rw [Bool.not_eq_true] at h1
    by_cases h2 : isSentinel (getProp props key) = true
    · rw [entryResult_sentinel key value props h1 h2] at h
      simp only [Except.error.injEq] at h
      exact Or.inl ⟨h1, h2, h.symm⟩
    · rw [Bool.not_eq_true] at h2
      by_cases h3 : isBooleanConditionKey key = true
      · by_cases h4 : truthy (getProp props key) = true
        · rw [entryResult_boolean_truthy key value props h1 h2 h3 h4] at h
          cases h5 : toClassValues value props with
          | error e2 =>
            rw [h5] at h
            simp only [error_bind, Except.error.injEq] at h
            exact Or.inr (Or.inl (by rw [h]))
          | ok cs => rw [h5] at h; simp at h
        · rw [Bool.not_eq_true] at h4
          rw [entryResult_boolean_falsy key value props h1 h2 h3 h4] at h
          simp at h
      · rw [Bool.not_eq_true] at h3
        cases hval : value with
        | vobj ventries =>
          rw [hval] at h
          rw [entryResult_variant key ventries props h1 h2 h3] at h
          cases h5 : toClassValues (getProp ventries (variantLookupKey (getProp props key) ventries)) props with
          | error e2 =>
            rw [h5] at h
            simp only [error_bind, Except.error.injEq] at h
            exact Or.inr (Or.inr ⟨ventries, rfl, h ▸ h5⟩)
          | ok cs => rw [h5] at h; simp at h
        | vstr s =>
          rw [hval, entryResult_nonVariant key _ props h1 h2 h3 (by simp [isPlainObject])] at h
          simp at h
        | vbool b =>
          rw [hval, entryResult_nonVariant key _ props h1 h2 h3 (by simp [isPlainObject])] at h
          simp at h
        | vundef =>
          rw [hval, entryResult_nonVariant key _ props h1 h2 h3 (by simp [isPlainObject])] at h
          simp at h
        | varr a =>
          rw [hval, entryResult_nonVariant key _ props h1 h2 h3 (by simp [isPlainObject])] at h
          simp at h

theorem conditionLoop_cons_error (key : String) (value : JSVal) (rest props : Obj) (e : String)
    (h : conditionLoop ((key, value) :: rest) props = .error e) :
    entryResult key value props = .error e ∨
      (∃ p, entryResult key value props = .ok p ∧ conditionLoop rest props = .error e) := by
  rw [conditionLoop_cons] at h
  cases h1 : entryResult key value props with
  | error e2 =>
    rw [h1] at h
    simp only [error_bind, Except.error.injEq] at h
    exact Or.inl (by rw [h])
  | ok p =>
    rw [h1] at h
    cases h2 : conditionLoop rest props with
    | error e2 =>
      rw [h2] at h
      simp only [ok_bind, error_bind, Except.error.injEq] at h
      exact Or.inr ⟨p, rfl, by rw [h]⟩
    | ok q => rw [h2] at h; simp at h

theorem condKeyAt_of_getProp (o : Obj) (k key : String)
    (h : ValKeyAt (getProp o k) key) : CondKeyAt o key := by
  induction o with
  | nil => simp only [getProp] at h; cases h
  | cons head tail ih =>
    obtain ⟨k2, v2⟩ := head
    by_cases heq : (k2 == k) = true
    · simp only [getProp, heq, if_true] at h
      exact CondKeyAt.inValue k2 v2 tail key h
    · simp only [getProp, heq, Bool.false_eq_true, if_false] at h
      exact CondKeyAt.tail (k2, v2) tail key (ih h)

theorem conditionLoop_error_sound :
    ∀ (n : Nat) (entries props : Obj) (e : String), sizeOf entries ≤ n →
      conditionLoop entries props = .error e →
      ∃ key, e = reservedErrorMessage key ∧ getProp props key = .vstr "$default" ∧
        CondKeyAt entries key := by
  intro n
  induction n using Nat.strong_induction_on with
  | _ n ih =>
    intro entries props e hsz h
    cases entries with
    | nil => rw [conditionLoop_nil] at h; simp at h
    | cons head rest =>
      obtain ⟨key, value⟩ := head
      have hszrest : sizeOf rest < n := by
        simp only [List.cons.sizeOf_spec, Prod.mk.sizeOf_spec] at hsz
        omega
      rcases conditionLoop_cons_error key value rest props e h with he | ⟨p, _, he⟩
      · rcases entryResult_error_inv key value props e he with
          ⟨h1, h2, h3⟩ | htv | ⟨ventries, hv, htv⟩
        · refine ⟨key, h3, (isSentinel_eq_true_iff _).mp h2, ?_⟩
          simp only [Bool.or_eq_false_iff, beq_eq_false_iff_ne, ne_eq] at h1
          exact CondKeyAt.here key value rest h1.1 h1.2
        · obtain ⟨entries2, hveq, hloop⟩ := toClassValues_error _ _ _ htv
          subst hveq
          have hsz2 : sizeOf entries2 < n := by
            simp only [List.cons.sizeOf_spec, Prod.mk.sizeOf_spec, JSVal.vobj.sizeOf_spec] at hsz
            omega
          obtain ⟨key2, he2, hp2, hk2⟩ :=
            ih (sizeOf entries2) hsz2 entries2 props e (le_refl _) hloop
          exact ⟨key2, he2, hp2,
            CondKeyAt.inValue key _ rest key2 (ValKeyAt.obj entries2 key2 hk2)⟩
        · subst hv
          obtain ⟨entries2, hveq, hloop⟩ := toClassValues_error _ _ _ htv
          have hszv : sizeOf entries2 < sizeOf ventries := by
            have hlt := sizeOf_getProp_lt ventries (variantLookupKey (getProp props key) ventries)
            rw [hveq] at hlt
            simp only [JSVal.vobj.sizeOf_spec] at hlt
            omega
          have hsz2 : sizeOf entries2 < n := by
            simp only [List.cons.sizeOf_spec, Prod.mk.sizeOf_spec, JSVal.vobj.sizeOf_spec] at hsz
            omega
          obtain ⟨key2, he2, hp2, hk2⟩ :=
            ih (sizeOf entries2) hsz2 entries2 props e (le_refl _) hloop
          have hvk : ValKeyAt (getProp ventries (variantLookupKey (getProp props key) ventries)) key2 := by
            rw [hveq]
            exact ValKeyAt.obj entries2 key2 hk2
          exact ⟨key2, he2, hp2,
            CondKeyAt.inValue key (JSVal.vobj ventries) rest key2
              (ValKeyAt.obj ventries key2 (condKeyAt_of_getProp ventries _ key2 hvk))⟩
      · obtain ⟨key2, he2, hp2, hk2⟩ := ih (sizeOf rest) hszrest rest props e (le_refl _) he
        exact ⟨key2, he2, hp2, CondKeyAt.tail (key, value) rest key2 hk2⟩

theorem noSentinel_ok :
    ∀ (n : Nat),
      (∀ (v : JSVal) (props : Obj), sizeOf v ≤ n →
        (∀ key, getProp props key ≠ .vstr "$default") →
        ∃ cs, toClassValues v props = .ok cs) ∧
      (∀ (entries props : Obj), sizeOf entries ≤ n →
        (∀ key, getProp props key ≠ .vstr "$default") →
        ∃ p, conditionLoop entries props = .ok p) := by
  intro n
  induction n using Nat.strong_induction_on with
  | _ n ih =>
    constructor
    · intro v props hsz hns
      cases v with
      | vobj entries =>
        have hsz2 : sizeOf entries < n := by
          simp only [JSVal.vobj.sizeOf_spec] at hsz
          omega
        obtain ⟨p, hp⟩ := (ih (sizeOf entries) hsz2).2 entries props (le_refl _) hns
        refine ⟨getProp entries "$base" ::
          (if p.2 then p.1 else getProp entries "$default" :: p.1), ?_⟩
        rw [toClassValues_vobj, resolveConditions_eq, hp, ok_bind]
      | vstr s => exact ⟨[.vstr s], by simp [toClassValues]⟩
      | vbool b => exact ⟨[.vbool b], by simp [toClassValues]⟩
      | vundef => exact ⟨[.vundef], by simp [toClassValues]⟩
      | varr a => exact ⟨[.varr a], by simp [toClassValues]⟩
    · intro entries props hsz hns
      cases entries with
      | nil => exact ⟨([], false), conditionLoop_nil props⟩
      | cons head rest =>
        obtain ⟨key, value⟩ := head
        have hszrest : sizeOf rest < n := by
          simp only [List.cons.sizeOf_spec, Prod.mk.sizeOf_spec] at hsz
          omega
        obtain ⟨q, hq⟩ := (ih (sizeOf rest) hszrest).2 rest props (le_refl _) hns
        have h2 : isSentinel (getProp props key) = false := by
          cases hgp : getProp props key with
          | vstr s =>
            have := hns key
            rw [hgp] at this
            simp only [isSentinel, beq_eq_false_iff_ne, ne_eq]
            intro hcontr
            exact this (by rw [hcontr])
          | vbool b => simp [isSentinel]
          | vundef => simp [isSentinel]
          | varr a2 => simp [isSentinel]
          | vobj o2 => simp [isSentinel]
        have hent : ∃ r, entryResult key value props = .ok r := by
          by_cases h1 : (key == "$base" || key == "$default") = true
          · exact ⟨([], false), entryResult_reserved key value props h1⟩
          · rw [Bool.not_eq_true] at h1
            by_cases h3 : isBooleanConditionKey key = true
            · by_cases h4 : truthy (getProp props key) = true
              · have hszv : sizeOf value < n := by
                  simp only [List.cons.sizeOf_spec, Prod.mk.sizeOf_spec] at hsz
                  omega
                obtain ⟨cs, hcs⟩ := (ih (sizeOf value) hszv).1 value props (le_refl _) hns
                refine ⟨(cs, true), ?_⟩
                rw [entryResult_boolean_truthy key value props h1 h2 h3 h4, hcs, ok_bind]
              · rw [Bool.not_eq_true] at h4
                exact ⟨([], false), entryResult_boolean_falsy key value props h1 h2 h3 h4⟩
            · rw [Bool.not_eq_true] at h3
              cases value with
              | vobj ventries =>
                have hszv : sizeOf (getProp ventries (variantLookupKey (getProp props key) ventries)) < n := by
                  have hlt := sizeOf_getProp_lt ventries (variantLookupKey (getProp props key) ventries)
                  simp only [List.cons.sizeOf_spec, Prod.mk.sizeOf_spec, JSVal.vobj.sizeOf_spec] at hsz
                  omega
                obtain ⟨cs, hcs⟩ :=
                  (ih _ hszv).1 (getProp ventries (variantLookupKey (getProp props key) ventries))
                    props (le_refl _) hns
                refine ⟨(cs, variantMatched (getProp props key) ventries), ?_⟩
                rw [entryResult_variant key ventries props h1 h2 h3, hcs, ok_bind]
              | vstr s =>
                exact ⟨([], false), entryResult_nonVariant key _ props h1 h2 h3 (by simp [isPlainObject])⟩
              | vbool b =>
                exact ⟨([], false), entryResult_nonVariant key _ props h1 h2 h3 (by simp [isPlainObject])⟩
              | vundef =>
                exact ⟨([], false), entryResult_nonVariant key _ props h1 h2 h3 (by simp [isPlainObject])⟩
              | varr a2 =>
                exact ⟨([], false), entryResult_nonVariant key _ props h1 h2 h3 (by simp [isPlainObject])⟩
        obtain ⟨r, hr⟩ := hent
        refine ⟨(r.1 ++ q.1, r.2 || q.2), ?_⟩
        rw [conditionLoop_cons, hr, ok_bind, hq, ok_bind]

theorem conditionLoop_append_ok (l1 l2 props : Obj) (cs : List JSVal) (m : Bool)
    (h : conditionLoop (l1 ++ l2) props = .ok (cs, m)) :
    ∃ cs1 m1 cs2 m2, conditionLoop l1 props = .ok (cs1, m1) ∧
      conditionLoop l2 props = .ok (cs2, m2) ∧ cs = cs1 ++ cs2 ∧ m = (m1 || m2) := by
  rw [conditionLoop_append] at h
  cases h1 : conditionLoop l1 props with
  | error e => rw [h1] at h; simp at h
  | ok p =>
    obtain ⟨cs1, m1⟩ := p
    rw [h1] at h
    cases h2 : conditionLoop l2 props with
    | error e => rw [h2] at h; simp at h
    | ok q =>
      obtain ⟨cs2, m2⟩ := q
      rw [h2] at h
      simp only [ok_bind, Except.ok.injEq, Prod.mk.injEq] at h
      exact ⟨cs1, m1, cs2, m2, rfl, rfl, h.1.symm, h.2.symm⟩

theorem conditionLoop_results (entries props : Obj) (cs : List JSVal) (m : Bool)
    (h : conditionLoop entries props = .ok (cs, m)) :
    ∃ results : List (List JSVal × Bool),
      List.Forall₂ (fun kv r => entryResult kv.1 kv.2 props = .ok r) entries results ∧
      cs = (results.map Prod.fst).flatten ∧ m = results.any Prod.snd := by
  induction entries generalizing cs m with
  | nil =>
    rw [conditionLoop_nil] at h
    simp only [Except.ok.injEq, Prod.mk.injEq] at h
    exact ⟨[], List.Forall₂.nil, by simp [← h.1], by simp [← h.2]⟩
  | cons head rest ih =>
    obtain ⟨key, value⟩ := head
    obtain ⟨cs1, m1, cs2, m2, hr, hloop, hcs, hm⟩ :=
      conditionLoop_cons_ok key value rest props cs m h
    obtain ⟨results, hfa, hcs2, hm2⟩ := ih cs2 m2 hloop
    exact ⟨(cs1, m1) :: results, List.Forall₂.cons hr hfa,
      by simp [hcs, hcs2], by simp [hm, hm2]⟩

theorem isBooleanConditionKey_not_reserved (key : String)
    (h : isBooleanConditionKey key = true) :
    (key == "$base" || key == "$default") = false := by
  simp only [Bool.or_eq_false_iff, beq_eq_false_iff_ne, ne_eq]
  constructor <;> rintro rfl <;>
    simp [isBooleanConditionKey, matchesBoolPat] at h

theorem truthy_of_isSentinel (v : JSVal) (h : isSentinel v = true) :
    truthy v = true := by
  cases v with
  | vstr s =>
    simp only [isSentinel, beq_iff_eq] at h
    subst h
    simp [truthy]
  | vbool b => simp [isSentinel] at h
  | vundef => simp [isSentinel] at h
  | varr a => simp [isSentinel] at h
  | vobj o => simp [isSentinel] at h

theorem isSentinel_eq_false_of_ne (v : JSVal) (h : v ≠ .vstr "$default") :
    isSentinel v = false := by
  cases hs : isSentinel v with
  | false => rfl
  | true => exact absurd ((isSentinel_eq_true_iff v).mp hs) h

/-- **C1.** The claim states that a matched variant condition never
suppresses the same level's `$default` fragment.  The code does the
opposite: a variant match sets `hasMatchedCondition` (line 115), which
suppresses the `$default` unshift (lines 121-123).  Evaluating
`resolveConditions` at the repository's own test input
(`applies $default even when variant matches`, scheme
`{$default: 'default-class', variant: {primary: 'primary-class'}}` with
`{variant: 'primary'}`) produces an output in which `default-class` is
absent, contradicting the claim, the README and the test suite. -/
theorem variantMatch_suppresses_enclosing_default :
    resolveConditions
        [("$default", JSVal.vstr "default-class"),
         ("variant", JSVal.vobj [("primary", JSVal.vstr "primary-class")])]
        [("variant", JSVal.vstr "primary")]
      = .ok [JSVal.vundef, JSVal.vstr "primary-class"] := by
  simp [resolveConditions_eq, conditionLoop_cons, conditionLoop_nil, entryResult,
        getProp, keyIn, isSentinel, isBooleanConditionKey, matchesBoolPat, isUpperAZ,
        truthy, variantLookupKey, variantMatched, toClassValues]

/-- **C2.** The output at each level is ordered base → (default, when
emitted) → condition-derived fragments, where the condition-derived part
is the concatenation, in scheme-declaration order, of the fragment lists
produced by the individual condition entries (each resolved depth-first);
the level's `$base` fragment is the head of the whole output, hence it
precedes all of its descendants' output. -/
theorem resolveConditions_output_order (scheme props : Obj) (out : List JSVal)
    (h : resolveConditions scheme props = .ok out) :
    ∃ results : List (List JSVal × Bool),
      List.Forall₂ (fun kv r => entryResult kv.1 kv.2 props = .ok r) scheme results ∧
      out = getProp scheme "$base" ::
        ((if results.any Prod.snd then [] else [getProp scheme "$default"]) ++
          (results.map Prod.fst).flatten) := by
  rw [resolveConditions_eq] at h
  cases hloop : conditionLoop scheme props with
  | error e => rw [hloop] at h; simp at h
  | ok p =>
    obtain ⟨cs, m⟩ := p
    rw [hloop] at h
    simp only [ok_bind, Except.ok.injEq] at h
    obtain ⟨results, hfa, hcs, hm⟩ := conditionLoop_results scheme props cs m hloop
    refine ⟨results, hfa, ?_⟩
    rw [← h, hcs]
    cases hany : results.any Prod.snd with
    | true => rw [hm, hany]; simp
    | false => rw [hm, hany]; simp

/-- Witness for C2: instantiation at a concrete scheme and property bag
(`{$base: 'b', v: {p: 'x'}}` with `{v: 'p'}`, which resolves to
`['b', 'x']`). -/
theorem resolveConditions_output_order_witness :
    ∃ results : List (List JSVal × Bool),
      List.Forall₂
        (fun kv r => entryResult kv.1 kv.2 [("v", JSVal.vstr "p")] = .ok r)
        [("$base", JSVal.vstr "b"), ("v", JSVal.vobj [("p", JSVal.vstr "x")])] results ∧
      [JSVal.vstr "b", JSVal.vstr "x"] =
        getProp [("$base", JSVal.vstr "b"), ("v", JSVal.vobj [("p", JSVal.vstr "x")])] "$base" ::
          ((if results.any Prod.snd then []
            else [getProp [("$base", JSVal.vstr "b"),
                           ("v", JSVal.vobj [("p", JSVal.vstr "x")])] "$default"]) ++
            (results.map Prod.fst).flatten) :=
  resolveConditions_output_order _ _ _
    (by simp [resolveConditions_eq, conditionLoop_cons, conditionLoop_nil, entryResult,
              getProp, keyIn, isSentinel, isBooleanConditionKey, matchesBoolPat, isUpperAZ,
              truthy, variantLookupKey, variantMatched, toClassValues])

/-- **C9.** Resolution is deterministic: two results of resolving the same
scheme against the same property bag coincide — the embedding is a pure
function of the pair (scheme, properties), with no hidden state. -/
theorem resolveConditions_deterministic (scheme props : Obj)
    (r1 r2 : Except String (List JSVal))
    (h1 : resolveConditions scheme props = r1)
    (h2 : resolveConditions scheme props = r2) : r1 = r2 := by
  rw [← h1, ← h2]

/-- Witness for C9: two runs on the empty scheme and empty property bag
yield the same output. -/
theorem resolveConditions_deterministic_witness :
    (Except.ok [JSVal.vundef, JSVal.vundef] : Except String (List JSVal)) =
      Except.ok [JSVal.vundef, JSVal.vundef] :=
  resolveConditions_deterministic [] [] _ _
    (by simp [resolveConditions_eq, conditionLoop_nil, getProp])
    (by simp [resolveConditions_eq, conditionLoop_nil, getProp])

/-- **C10.** Whenever resolution succeeds, the returned sequence is
non-empty and its first element is exactly the value of the level's
`$base` entry — the `$base` prepend is unconditional — and when `$base`
is absent the first element is the `undefined` placeholder. -/
theorem base_prepended_first (scheme props : Obj) (out : List JSVal)
    (hok : resolveConditions scheme props = .ok out) :
    out ≠ [] ∧ out.head? = some (getProp scheme "$base") ∧
      (keyIn scheme "$base" = false → out.head? = some JSVal.vundef) := by
  rw [resolveConditions_eq] at hok
  cases hloop : conditionLoop scheme props with
  | error e => rw [hloop] at hok; simp at hok
  | ok p =>
    rw [hloop] at hok
    simp only [ok_bind, Except.ok.injEq] at hok
    refine ⟨?_, ?_, ?_⟩
    · rw [← hok]; simp
    · rw [← hok]; simp
    · intro hkb
      rw [← hok]
      simp [getProp_of_keyIn_false scheme "$base" hkb]

/-- **C3 (amended).** Resolution fails exactly on the reserved sentinel,
restricted to levels the resolver actually reaches: (1) every error is the
reserved-sentinel error, naming a condition key of the scheme (at some
depth) whose supplied property value is the sentinel string; (2) a
top-level condition key whose property value is the sentinel always
aborts the whole resolution with an error; (3) when no property value is
the sentinel — in particular when properties are merely absent or
`undefined` — resolution never throws. -/
theorem reserved_sentinel_error_characterization (scheme props : Obj) :
    (∀ e, resolveConditions scheme props = .error e →
      ∃ key, e = reservedErrorMessage key ∧ getProp props key = .vstr "$default" ∧
        CondKeyAt scheme key) ∧
    (∀ (key : String) (value : JSVal) (l1 l2 : Obj), scheme = l1 ++ (key, value) :: l2 →
      key ≠ "$base" → key ≠ "$default" →
      getProp props key = .vstr "$default" →
      ∃ e, resolveConditions scheme props = .error e) ∧
    ((∀ key, getProp props key ≠ .vstr "$default") →
      ∃ out, resolveConditions scheme props = .ok out) := by
  refine ⟨?_, ?_, ?_⟩
  · intro e he
    exact conditionLoop_error_sound (sizeOf scheme) scheme props e (le_refl _)
      ((resolveConditions_error_iff scheme props e).mp he)
  · intro key value l1 l2 hs hb hd hprop
    subst hs
    have hres : (key == "$base" || key == "$default") = false := by
      simp only [Bool.or_eq_false_iff, beq_eq_false_iff_ne, ne_eq]
      exact ⟨hb, hd⟩
    have hsent : isSentinel (getProp props key) = true := by
      rw [hprop]; simp [isSentinel]
    have hcons : conditionLoop ((key, value) :: l2) props
        = .error (reservedErrorMessage key) := by
      rw [conditionLoop_cons, entryResult_sentinel key value props hres hsent, error_bind]
    cases h1 : conditionLoop l1 props with
    | error e =>
      exact ⟨e, (resolveConditions_error_iff _ _ _).mpr
        (by rw [conditionLoop_append, h1, error_bind])⟩
    | ok p =>
      exact ⟨reservedErrorMessage key, (resolveConditions_error_iff _ _ _).mpr
        (by rw [conditionLoop_append, h1, ok_bind, hcons, error_bind])⟩
  · intro hns
    obtain ⟨p, hp⟩ := (noSentinel_ok (sizeOf scheme)).2 scheme props (le_refl _) hns
    exact ⟨getProp scheme "$base" :: (if p.2 then p.1 else getProp scheme "$default" :: p.1),
      by rw [resolveConditions_eq, hp, ok_bind]⟩

/-- Counterexample to C3 as stated: `isInner` is a condition key of the
scheme (nested under `isOpen`) and its supplied property value is the
reserved sentinel, yet resolution succeeds, because the `isOpen` branch is
falsy and the nested level is never visited — so the "if and only if …
regardless of nesting depth" of the claim fails in the ⇐ direction. -/
theorem nested_sentinel_unreported :
    resolveConditions [("isOpen", JSVal.vobj [("isInner", JSVal.vstr "x")])]
        [("isOpen", JSVal.vbool false), ("isInner", JSVal.vstr "$default")]
      = .ok [JSVal.vundef, JSVal.vundef] ∧
    getProp [("isOpen", JSVal.vbool false), ("isInner", JSVal.vstr "$default")] "isInner"
      = JSVal.vstr "$default" ∧
    CondKeyAt [("isOpen", JSVal.vobj [("isInner", JSVal.vstr "x")])] "isInner" := by
  refine ⟨?_, ?_, ?_⟩
  · simp [resolveConditions_eq, conditionLoop_cons, conditionLoop_nil, entryResult,
          getProp, keyIn, isSentinel, isBooleanConditionKey, matchesBoolPat, isUpperAZ,
          truthy, variantLookupKey, variantMatched, toClassValues]
  · simp [getProp]
  · exact CondKeyAt.inValue "isOpen" _ [] "isInner"
      (ValKeyAt.obj _ "isInner"
        (CondKeyAt.here "isInner" (JSVal.vstr "x") [] (by decide) (by decide)))

/-- Witness for C3 (amended): supplying the sentinel for the top-level
condition key `variant` makes resolution fail. -/
theorem reserved_sentinel_error_characterization_witness :
    ∃ e, resolveConditions [("variant", JSVal.vobj [("primary", JSVal.vstr "p")])]
        [("variant", JSVal.vstr "$default")] = .error e :=
  (reserved_sentinel_error_characterization
      [("variant", JSVal.vobj [("primary", JSVal.vstr "p")])]
      [("variant", JSVal.vstr "$default")]).2.1
    "variant" (JSVal.vobj [("primary", JSVal.vstr "p")]) [] [] rfl
    (by decide) (by decide) (by simp [getProp])

/-- **C4.** At any level where some boolean condition (a key matching the
`is[A-Z]`/`allows[A-Z]` pattern with a truthy property value) matched, the
level's own `$default` fragment is not inserted: the successful output is
exactly the `$base` fragment followed by the condition-derived fragments,
with the matched flag set. -/
theorem boolean_match_suppresses_default (scheme props : Obj) (out : List JSVal)
    (key : String) (value : JSVal) (l1 l2 : Obj)
    (hscheme : scheme = l1 ++ (key, value) :: l2)
    (hbool : isBooleanConditionKey key = true)
    (htruthy : truthy (getProp props key) = true)
    (hok : resolveConditions scheme props = .ok out) :
    ∃ cs, conditionLoop scheme props = .ok (cs, true) ∧
      out = getProp scheme "$base" :: cs := by
  rw [resolveConditions_eq] at hok
  cases hloop : conditionLoop scheme props with
  | error e => rw [hloop] at hok; simp at hok
  | ok p =>
    obtain ⟨cs, m⟩ := p
    rw [hloop] at hok
    simp only [ok_bind, Except.ok.injEq] at hok
    have hm : m = true := by
      subst hscheme
      obtain ⟨cs1, m1, cs2, m2, hl1, hl2, hcs, hmm⟩ :=
        conditionLoop_append_ok l1 _ props cs m hloop
      obtain ⟨cs3, m3, cs4, m4, hent, hrest, hcs2, hm2⟩ :=
        conditionLoop_cons_ok key value l2 props cs2 m2 hl2
      have hres := isBooleanConditionKey_not_reserved key hbool
      have hsent : isSentinel (getProp props key) = false := by
        cases hse : isSentinel (getProp props key) with
        | false => rfl
        | true =>
          rw [entryResult_sentinel key value props hres hse] at hent
          simp at hent
      rw [entryResult_boolean_truthy key value props hres hsent hbool htruthy] at hent
      cases htc : toClassValues value props with
      | error e => rw [htc] at hent; simp at hent
      | ok cs5 =>
        rw [htc] at hent
        simp only [ok_bind, Except.ok.injEq, Prod.mk.injEq] at hent
        rw [hmm, hm2, ← hent.2]
        simp
    subst hm
    refine ⟨cs, rfl, ?_⟩
    rw [← hok]
    simp

/-- Witness for C4: a truthy `isX` at the top level suppresses the
top-level `$default` fragment `'d'`. -/
theorem boolean_match_suppresses_default_witness :
    ∃ cs, conditionLoop [("$default", JSVal.vstr "d"), ("isX", JSVal.vstr "x")]
        [("isX", JSVal.vbool true)] = .ok (cs, true) ∧
      [JSVal.vundef, JSVal.vstr "x"] =
        getProp [("$default", JSVal.vstr "d"), ("isX", JSVal.vstr "x")] "$base" :: cs :=
  boolean_match_suppresses_default _ _ _ "isX" (JSVal.vstr "x")
    [("$default", JSVal.vstr "d")] [] rfl
    (by simp [isBooleanConditionKey, matchesBoolPat, isUpperAZ])
    (by simp [truthy, getProp])
    (by simp [resolveConditions_eq, conditionLoop_cons, conditionLoop_nil, entryResult,
              getProp, keyIn, isSentinel, isBooleanConditionKey, matchesBoolPat, isUpperAZ,
              truthy, variantLookupKey, variantMatched, toClassValues])

/-- **C5.** For a variant-condition entry (non-boolean key whose value is a
mapping), the fragments contributed at that position are: when the
property value is a string that is a key of the mapping, the recursively
resolved entry at that key (so the mapping's own `$default` is skipped);
otherwise — value absent, not a string, or not a key of the mapping — the
recursively resolved value of the mapping's own `$default` entry.  The
contribution sits between the fragments of the preceding and following
entries. -/
theorem variant_condition_resolution (scheme props : Obj) (out : List JSVal)
    (key : String) (ventries l1 l2 : Obj)
    (hscheme : scheme = l1 ++ (key, JSVal.vobj ventries) :: l2)
    (hkey : isBooleanConditionKey key = false)
    (hb : key ≠ "$base") (hd : key ≠ "$default")
    (hok : resolveConditions scheme props = .ok out) :
    ∃ pre m1 post m2 chosen,
      conditionLoop l1 props = .ok (pre, m1) ∧
      conditionLoop l2 props = .ok (post, m2) ∧
      toClassValues (getProp ventries (variantLookupKey (getProp props key) ventries)) props
        = .ok chosen ∧
      conditionLoop scheme props =
        .ok (pre ++ chosen ++ post,
          m1 || (variantMatched (getProp props key) ventries || m2)) ∧
      (∀ s, getProp props key = .vstr s → keyIn ventries s = true →
        variantLookupKey (getProp props key) ventries = s ∧
          variantMatched (getProp props key) ventries = true) ∧
      ((∀ s, getProp props key = .vstr s → keyIn ventries s = false) →
        variantLookupKey (getProp props key) ventries = "$default" ∧
          variantMatched (getProp props key) ventries = false) := by
  subst hscheme
  rw [resolveConditions_eq] at hok
  cases hloop : conditionLoop (l1 ++ (key, JSVal.vobj ventries) :: l2) props with
  | error e => rw [hloop] at hok; simp at hok
  | ok p =>
    obtain ⟨cs, m⟩ := p
    obtain ⟨pre, m1, cs2, m2, hl1, hl2, hcs, hm⟩ :=
      conditionLoop_append_ok _ _ _ _ _ hloop
    obtain ⟨cs3, m3, post, m4, hent, hrest, hcs2, hm2⟩ :=
      conditionLoop_cons_ok _ _ _ _ _ _ hl2
    have hres : (key == "$base" || key == "$default") = false := by
      simp only [Bool.or_eq_false_iff, beq_eq_false_iff_ne, ne_eq]
      exact ⟨hb, hd⟩
    have hsent : isSentinel (getProp props key) = false := by
      cases hse : isSentinel (getProp props key) with
      | false => rfl
      | true =>
        rw [entryResult_sentinel _ _ _ hres hse] at hent
        simp at hent
    rw [entryResult_variant key ventries props hres hsent hkey] at hent
    cases htc : toClassValues (getProp ventries (variantLookupKey (getProp props key) ventries)) props with
    | error e => rw [htc] at hent; simp at hent
    | ok chosen =>
      rw [htc] at hent
      simp only [ok_bind, Except.ok.injEq, Prod.mk.injEq] at hent
      refine ⟨pre, m1, post, m4, chosen, hl1, hrest, rfl, ?_, ?_, ?_⟩
      · rw [hcs, hcs2, hm, hm2, ← hent.1, ← hent.2]
        simp [List.append_assoc]
      · intro s hgp hin
        rw [hgp]
        simp [variantLookupKey, variantMatched, hin]
      · intro hnos
        cases hgp : getProp props key with
        | vstr s =>
          have hks := hnos s hgp
          simp [variantLookupKey, variantMatched, hks]
        | vbool b => simp [variantLookupKey, variantMatched]
        | vundef => simp [variantLookupKey, variantMatched]
        | varr a => simp [variantLookupKey, variantMatched]
        | vobj o => simp [variantLookupKey, variantMatched]

/-- Witness for C5: an unmatched variant (`props = {}`) falls back to the
mapping's own `$default` entry `'vd'`. -/
theorem variant_condition_resolution_witness :
    ∃ pre m1 post m2 chosen,
      conditionLoop [] [] = .ok (pre, m1) ∧
      conditionLoop [] [] = .ok (post, m2) ∧
      toClassValues
          (getProp [("$default", JSVal.vstr "vd"), ("primary", JSVal.vstr "p")]
            (variantLookupKey (getProp [] "variant")
              [("$default", JSVal.vstr "vd"), ("primary", JSVal.vstr "p")])) []
        = .ok chosen ∧
      conditionLoop
          ([] ++ ("variant",
            JSVal.vobj [("$default", JSVal.vstr "vd"), ("primary", JSVal.vstr "p")]) :: []) [] =
        .ok (pre ++ chosen ++ post,
          m1 || (variantMatched (getProp [] "variant")
            [("$default", JSVal.vstr "vd"), ("primary", JSVal.vstr "p")] || m2)) ∧
      (∀ s, getProp [] "variant" = .vstr s →
        keyIn [("$default", JSVal.vstr "vd"), ("primary", JSVal.vstr "p")] s = true →
        variantLookupKey (getProp [] "variant")
            [("$default", JSVal.vstr "vd"), ("primary", JSVal.vstr "p")] = s ∧
          variantMatched (getProp [] "variant")
            [("$default", JSVal.vstr "vd"), ("primary", JSVal.vstr "p")] = true) ∧
      ((∀ s, getProp [] "variant" = .vstr s →
        keyIn [("$default", JSVal.vstr "vd"), ("primary", JSVal.vstr "p")] s = false) →
        variantLookupKey (getProp [] "variant")
            [("$default", JSVal.vstr "vd"), ("primary", JSVal.vstr "p")] = "$default" ∧
          variantMatched (getProp [] "variant")
            [("$default", JSVal.vstr "vd"), ("primary", JSVal.vstr "p")] = false) :=
  variant_condition_resolution _ _ [JSVal.vundef, JSVal.vundef, JSVal.vstr "vd"] "variant"
    [("$default", JSVal.vstr "vd"), ("primary", JSVal.vstr "p")] [] [] rfl
    (by simp [isBooleanConditionKey, matchesBoolPat, isUpperAZ])
    (by decide) (by decide)
    (by simp [resolveConditions_eq, conditionLoop_cons, conditionLoop_nil, entryResult,
              getProp, keyIn, isSentinel, isBooleanConditionKey, matchesBoolPat, isUpperAZ,
              truthy, variantLookupKey, variantMatched, toClassValues])

/-- **C6.** A boolean-condition entry whose property value is falsy or
undefined contributes nothing at all: resolution of the scheme with the
entry is identical to resolution of the scheme with the entry removed, so
no fragment from that branch (at any nesting depth inside it) can appear
in the output. -/
theorem falsy_boolean_branch_skipped (props : Obj) (key : String) (value : JSVal)
    (l1 l2 : Obj)
    (hbool : isBooleanConditionKey key = true)
    (hfalsy : truthy (getProp props key) = false) :
    resolveConditions (l1 ++ (key, value) :: l2) props =
      resolveConditions (l1 ++ l2) props := by
  have hres := isBooleanConditionKey_not_reserved key hbool
  have hsent : isSentinel (getProp props key) = false := by
    cases hse : isSentinel (getProp props key) with
    | false => rfl
    | true =>
      rw [truthy_of_isSentinel _ hse] at hfalsy
      exact absurd hfalsy (by simp)
  have hentry := entryResult_boolean_falsy key value props hres hsent hbool hfalsy
  have hb2 : "$base" ≠ key := by
    simp only [Bool.or_eq_false_iff, beq_eq_false_iff_ne, ne_eq] at hres
    exact fun h => hres.1 h.symm
  have hd2 : "$default" ≠ key := by
    simp only [Bool.or_eq_false_iff, beq_eq_false_iff_ne, ne_eq] at hres
    exact fun h => hres.2 h.symm
  have hloop : conditionLoop (l1 ++ (key, value) :: l2) props =
      conditionLoop (l1 ++ l2) props := by
    rw [conditionLoop_append, conditionLoop_append, conditionLoop_cons, hentry, ok_bind]
    cases h1 : conditionLoop l1 props with
    | error e => simp
    | ok p =>
      cases h2 : conditionLoop l2 props with
      | error e => simp
      | ok q => simp
  rw [resolveConditions_eq, resolveConditions_eq, hloop,
      getProp_append_skip l1 l2 key "$base" value hb2,
      getProp_append_skip l1 l2 key "$default" value hd2]

/-- Witness for C6: a falsy `isX` entry is skipped entirely; the output
equals that of the scheme without the entry. -/
theorem falsy_boolean_branch_skipped_witness :
    resolveConditions ([] ++ ("isX", JSVal.vstr "x") :: [("$default", JSVal.vstr "d")])
        [("isX", JSVal.vbool false)] =
      resolveConditions ([] ++ [("$default", JSVal.vstr "d")])
        [("isX", JSVal.vbool false)] :=
  falsy_boolean_branch_skipped _ "isX" (JSVal.vstr "x") [] [("$default", JSVal.vstr "d")]
    (by simp [isBooleanConditionKey, matchesBoolPat, isUpperAZ])
    (by simp [truthy, getProp])

/-- Counterexample to C7 as stated: the empty scheme resolved against the
empty property bag does not yield the empty fragment sequence (it yields
the two `undefined` placeholders for the absent `$base` and `$default`),
and an unmatched variant mapping without a `$default` entry of its own
appends one element — the `undefined` placeholder — rather than nothing. -/
theorem empty_scheme_not_empty_output :
    resolveConditions [] [] ≠ .ok [] ∧
    resolveConditions [("variant", JSVal.vobj [("primary", JSVal.vstr "p")])] []
      = .ok [JSVal.vundef, JSVal.vundef, JSVal.vundef] := by
  constructor
  · intro h
    rw [resolveConditions_eq, conditionLoop_nil, ok_bind] at h
    simp [getProp] at h
  · simp [resolveConditions_eq, conditionLoop_cons, conditionLoop_nil, entryResult,
          getProp, keyIn, isSentinel, isBooleanConditionKey, matchesBoolPat, isUpperAZ,
          truthy, variantLookupKey, variantMatched, toClassValues]

/-- **C7 (amended).** Absent reserved entries contribute the `undefined`
placeholder rather than nothing: an unmatched variant mapping with no
`$default` entry of its own appends the single element `undefined`, and
resolving the empty scheme against the empty property bag yields
`[undefined, undefined]` (the placeholders of the absent `$base` and
`$default`). -/
theorem absent_reserved_entries_yield_undef (props : Obj) (key : String)
    (ventries l1 l2 : Obj) (pre post : List JSVal) (m1 m2 : Bool)
    (hkey : isBooleanConditionKey key = false)
    (hb : key ≠ "$base") (hd : key ≠ "$default")
    (hns : getProp props key ≠ JSVal.vstr "$default")
    (hnm : variantMatched (getProp props key) ventries = false)
    (hnodef : keyIn ventries "$default" = false)
    (h1 : conditionLoop l1 props = .ok (pre, m1))
    (h2 : conditionLoop l2 props = .ok (post, m2)) :
    conditionLoop (l1 ++ (key, JSVal.vobj ventries) :: l2) props =
      .ok (pre ++ JSVal.vundef :: post, m1 || m2) ∧
    resolveConditions [] [] = .ok [JSVal.vundef, JSVal.vundef] := by
  constructor
  · have hres : (key == "$base" || key == "$default") = false := by
      simp only [Bool.or_eq_false_iff, beq_eq_false_iff_ne, ne_eq]
      exact ⟨hb, hd⟩
    have hsent := isSentinel_eq_false_of_ne _ hns
    have hlk : variantLookupKey (getProp props key) ventries = "$default" := by
      cases hgp : getProp props key with
      | vstr s =>
        rw [hgp] at hnm
        simp only [variantMatched] at hnm
        simp [variantLookupKey, hnm]
      | vbool b => simp [variantLookupKey]
      | vundef => simp [variantLookupKey]
      | varr a => simp [variantLookupKey]
      | vobj o => simp [variantLookupKey]
    have hchosen : getProp ventries (variantLookupKey (getProp props key) ventries)
        = JSVal.vundef := by
      rw [hlk]
      exact getProp_of_keyIn_false ventries "$default" hnodef
    have hentry : entryResult key (JSVal.vobj ventries) props
        = .ok ([JSVal.vundef], false) := by
      rw [entryResult_variant key ventries props hres hsent hkey, hchosen]
      simp [toClassValues, hnm]
    rw [conditionLoop_append, h1, ok_bind, conditionLoop_cons, hentry, ok_bind, h2,
        ok_bind, ok_bind]
    simp
  · simp [resolveConditions_eq, conditionLoop_nil, getProp]

/-- Witness for C7 (amended): a single unmatched variant with no
`$default` contributes exactly one `undefined` placeholder. -/
theorem absent_reserved_entries_yield_undef_witness :
    conditionLoop ([] ++ ("variant", JSVal.vobj [("primary", JSVal.vstr "p")]) :: []) [] =
      .ok (([] : List JSVal) ++ JSVal.vundef :: [], false || false) ∧
    resolveConditions [] [] = .ok [JSVal.vundef, JSVal.vundef] :=
  absent_reserved_entries_yield_undef [] "variant" [("primary", JSVal.vstr "p")] [] []
    [] [] false false
    (by simp [isBooleanConditionKey, matchesBoolPat, isUpperAZ])
    (by decide) (by decide)
    (by simp [getProp])
    (by simp [getProp, variantMatched])
    (by simp [keyIn])
    (conditionLoop_nil []) (conditionLoop_nil [])

/-- **C8.** A variant-mapping value of malformed shape (not a plain
object, e.g. a boolean) does not make resolution fail: when its key is
matched, the raw value is emitted as-is as a single opaque literal
fragment, and the loop concludes successfully. -/
theorem malformed_value_opaque_literal (props : Obj) (key : String)
    (ventries l1 l2 : Obj) (s : String) (v : JSVal) (pre post : List JSVal) (m1 m2 : Bool)
    (hkey : isBooleanConditionKey key = false)
    (hb : key ≠ "$base") (hd : key ≠ "$default")
    (hs : getProp props key = JSVal.vstr s) (hsd : s ≠ "$default")
    (hin : keyIn ventries s = true)
    (hv : getProp ventries s = v)
    (hshape : isPlainObject v = false)
    (h1 : conditionLoop l1 props = .ok (pre, m1))
    (h2 : conditionLoop l2 props = .ok (post, m2)) :
    conditionLoop (l1 ++ (key, JSVal.vobj ventries) :: l2) props =
      .ok (pre ++ v :: post, true) := by
  have hres : (key == "$base" || key == "$default") = false := by
    simp only [Bool.or_eq_false_iff, beq_eq_false_iff_ne, ne_eq]
    exact ⟨hb, hd⟩
  have hsent : isSentinel (getProp props key) = false := by
    rw [hs]
    simp only [isSentinel, beq_eq_false_iff_ne, ne_eq]
    exact hsd
  have hlk : variantLookupKey (getProp props key) ventries = s := by
    rw [hs]
    simp [variantLookupKey, hin]
  have hvm : variantMatched (getProp props key) ventries = true := by
    rw [hs]
    simp [variantMatched, hin]
  have hentry : entryResult key (JSVal.vobj ventries) props = .ok ([v], true) := by
    rw [entryResult_variant key ventries props hres hsent hkey, hlk, hv,
        toClassValues_notObj v props hshape, ok_bind, hvm]
  rw [conditionLoop_append, h1, ok_bind, conditionLoop_cons, hentry, ok_bind, h2,
      ok_bind, ok_bind]
  simp

/-- Witness for C8: a variant entry whose mapping value is the raw boolean
`true` is emitted as-is and resolution succeeds. -/
theorem malformed_value_opaque_literal_witness :
    conditionLoop ([] ++ ("variant", JSVal.vobj [("weird", JSVal.vbool true)]) :: [])
        [("variant", JSVal.vstr "weird")] =
      .ok (([] : List JSVal) ++ JSVal.vbool true :: [], true) :=
  malformed_value_opaque_literal [("variant", JSVal.vstr "weird")] "variant"
    [("weird", JSVal.vbool true)] [] [] "weird" (JSVal.vbool true) [] [] false false
    (by simp [isBooleanConditionKey, matchesBoolPat, isUpperAZ])
    (by decide) (by decide)
    (by simp [getProp])
    (by decide)
    (by simp [keyIn])
    (by simp [getProp])
    (by simp [isPlainObject])
    (conditionLoop_nil _) (conditionLoop_nil _)

/-- Witness for C10: the empty scheme resolved against the empty property
bag returns `[undefined, undefined]`, whose head is the `undefined`
placeholder standing for the absent `$base`. -/
theorem base_prepended_first_witness :
    ([JSVal.vundef, JSVal.vundef] : List JSVal) ≠ [] ∧
      ([JSVal.vundef, JSVal.vundef] : List JSVal).head? = some (getProp [] "$base") ∧
      (keyIn [] "$base" = false →
        ([JSVal.vundef, JSVal.vundef] : List JSVal).head? = some JSVal.vundef) :=
  base_prepended_first [] [] _
    (by simp [resolveConditions_eq, conditionLoop_nil, getProp])

end NTV
